import Mathlib

/-!
Shallow embedding of `src/git.rs` (the core of the `diff` tool): the `Commit`
record, the parser `parse_commit_message`, the line splitter
`parse_git_output` (Rust `str::lines`), the differ `compare`, and the
process-driving entry point `compare_branches` over an explicit oracle for
the external `git` processes. Strings are modelled as lists of characters
so that splitting and substring containment are by plain recursion.
-/

set_option autoImplicit false

namespace Git

/-- Strings are modelled as lists of characters. -/
abbrev Str := List Char

/-- The `Commit` struct of `git.rs`: only `date` and `summary` survive
parsing; the hash is discarded. -/
structure Commit where
  date : Str
  summary : Str
  deriving DecidableEq, Repr

/-- `begMatch w s` holds when `w` is a leading segment of `s`.
Helper for `occursIn`. -/
def begMatch : Str → Str → Bool
  | [], _ => true
  | _ :: _, [] => false
  | a :: as, b :: bs => a == b && begMatch as bs

/-- `occursIn w s` models Rust `s.contains(w)` for string patterns:
`w` occurs contiguously somewhere in `s`. -/
def occursIn : Str → Str → Bool
  | w, [] => begMatch w []
  | w, b :: bs => begMatch w (b :: bs) || occursIn w bs

/-- `splitChar c s` models Rust `s.split(c)`: the maximal pieces of `s`
between occurrences of `c`. It is never empty; on `[]` it is `[[]]`,
matching how Rust `"".split(c)` yields one empty field. -/
def splitChar (c : Char) : Str → List Str
  | [] => [[]]
  | x :: xs =>
    match splitChar c xs with
    | [] => [[x]]
    | y :: ys => if x = c then [] :: y :: ys else (x :: y) :: ys

/-- `splitIncl s` models Rust `s.split_inclusive('\n')`: pieces keep their
terminating newline, and there is no empty final piece (so `[]` maps
to `[]`). -/
def splitIncl : Str → List Str
  | [] => []
  | x :: xs =>
    if x = '\n' then ['\n'] :: splitIncl xs
    else
      match splitIncl xs with
      | [] => [[x]]
      | y :: ys => (x :: y) :: ys

/-- `stripTrailChar c l` models Rust `l.strip_suffix(c)`: `some` of `l`
without its last character when that character is `c`, else `none`. -/
def stripTrailChar (c : Char) (l : Str) : Option Str :=
  if l.getLast? = some c then some l.dropLast else none

/-- The per-line map of Rust `str::lines`: remove a trailing `'\n'`, and
when one was removed also remove a trailing `'\r'` (a `'\r'` not
followed by `'\n'` stays). -/
def linesMap (l : Str) : Str :=
  match stripTrailChar '\n' l with
  | none => l
  | some l1 =>
    match stripTrailChar '\r' l1 with
    | none => l1
    | some l2 => l2

/-- Rust `str::lines`: split inclusively on `'\n'`, then strip the
terminators line by line. -/
def rlines (s : Str) : List Str :=
  (splitIncl s).map linesMap

/-- Rust `str::trim`: drop whitespace from both ends. -/
def trim (s : Str) : Str :=
  ((s.dropWhile Char.isWhitespace).reverse.dropWhile Char.isWhitespace).reverse

/-- The abnormal termination a Rust slice index out of bounds produces
(`fields[2]` on a short line, modelled as an `Except.error`). -/
inductive Panic where
  | indexOutOfBounds
  deriving DecidableEq, Repr

/-- `parse_commit_message` of `git.rs`. `fields[0]` (the discarded
`_commit_id`) is never out of bounds because `splitChar` never returns
`[]`; `fields[2]` is out of bounds exactly when the line has fewer than
3 `|`-delimited fields, and there the Rust code panics, modelled by
`Except.error Panic.indexOutOfBounds`. The exclusion check runs before
`fields[1]` is read, but after `fields[2]`. -/
def parse_commit_message (msg : Str) (exclude : Option (List Str)) :
    Except Panic (Option Commit) :=
  let fields := splitChar '|' msg
  if fields.length < 3 then Except.error Panic.indexOutOfBounds
  else
    let summary := fields.getD 2 []
    match exclude with
    | some ex =>
      if ex.any (fun w => occursIn w summary) then Except.ok none
      else Except.ok (some { date := fields.getD 1 [], summary := summary })
    | none => Except.ok (some { date := fields.getD 1 [], summary := summary })

/-- The `filter_map(|msg| parse_commit_message(..))` collection in
`compare_branches`: keeps parsed commits in order, drops `none`s, and
propagates a panic from any line. -/
def parse_all (msgs : List Str) (exclude : Option (List Str)) :
    Except Panic (List Commit) :=
  match msgs with
  | [] => Except.ok []
  | m :: rest =>
    match parse_commit_message m exclude with
    | Except.error e => Except.error e
    | Except.ok c? =>
      match parse_all rest exclude with
      | Except.error e => Except.error e
      | Except.ok cs =>
        match c? with
        | some c => Except.ok (c :: cs)
        | none => Except.ok cs

/-- `compare` of `git.rs`: keep the commits of `commits1` whose summary is
not among the summaries of `commits2` (the `HashSet` is modelled by list
membership over the summaries) and does not contain an excluded word.
The loop with `push` is the filter, in original order. -/
def compare (commits1 commits2 : List Commit) (exclude : Option (List Str)) :
    List Commit :=
  let hash := commits2.map (fun c => c.summary)
  let word_to_exclude :=
    match exclude with
    | some words => words
    | none => []
  commits1.filter (fun c =>
    !(hash.contains c.summary) &&
    !(word_to_exclude.any (fun w => occursIn w c.summary)))

/-- The captured result of one spawned process (`std::process::Output`):
exit status collapsed to success or not, plus captured stdout. -/
structure Output where
  success : Bool
  stdout : Str
  deriving DecidableEq, Repr

/-- The outcome of attempting to spawn one external process:
either an `Output`, or the spawn itself failed (`std::io::Error`). -/
inductive SpawnResult where
  | ok (out : Output)
  | spawnError
  deriving DecidableEq, Repr

/-- Oracle for the external `git` binary: what `git rev-parse
--show-toplevel` yields, and what `git log <branch> ...` yields as a
function of working directory and branch. -/
structure GitWorld where
  revParse : SpawnResult
  logCmd : Str → Str → SpawnResult

/-- The error values `compare_branches` can return. -/
inductive RunError where
  | executionFailure
  | notARepository
  deriving DecidableEq, Repr

/-- How a run of `compare_branches` can end: a commit list, a returned
error, or an abnormal termination (panic from `.unwrap()` or from an
out-of-bounds index while parsing). -/
inductive RunOutcome where
  | ok (commits : List Commit)
  | error (e : RunError)
  | panicked
  deriving DecidableEq, Repr

/-- `parse_git_output` of `git.rs`: the stdout text split into lines
(Rust `str::lines`). -/
def parse_git_output (raw_commits : Output) : List Str :=
  rlines raw_commits.stdout

/-- `compare_branches` of `git.rs` over a `GitWorld` oracle. The `?` on the
`rev-parse` spawn propagates a spawn failure as a returned error; a
failed exit status returns the not-a-repository error; the two
`get_branch_commits(..).unwrap()` calls panic on a spawn failure; a
parse panic propagates; otherwise the parsed lists are compared. -/
def compare_branches (w : GitWorld) (branch1 branch2 : Str)
    (exclude : Option (List Str)) : RunOutcome :=
  match w.revParse with
  | SpawnResult.spawnError => RunOutcome.error RunError.executionFailure
  | SpawnResult.ok top =>
    if !top.success then RunOutcome.error RunError.notARepository
    else
      let repo_path := trim top.stdout
      match w.logCmd repo_path branch1 with
      | SpawnResult.spawnError => RunOutcome.panicked
      | SpawnResult.ok raw1 =>
        match w.logCmd repo_path branch2 with
        | SpawnResult.spawnError => RunOutcome.panicked
        | SpawnResult.ok raw2 =>
          match parse_all (parse_git_output raw1) exclude with
          | Except.error _ => RunOutcome.panicked
          | Except.ok branch1_commits =>
            match parse_all (parse_git_output raw2) exclude with
            | Except.error _ => RunOutcome.panicked
            | Except.ok branch2_commits =>
              RunOutcome.ok (compare branch1_commits branch2_commits exclude)

/-- Join a list of lines into one text, terminating each line with a
newline. Used to state the round trip of `rlines`. -/
def joinTerm (ls : List Str) : Str :=
  ls.foldr (fun l acc => l ++ '\n' :: acc) []

/-! ### Helper lemmas about the splitting and containment functions -/

theorem splitChar_ne_nil (c : Char) (s : Str) : splitChar c s ≠ [] := by
  cases s with
  | nil => simp [splitChar]
  | cons x xs =>
    simp only [splitChar]
    cases h : splitChar c xs with
    | nil => simp
    | cons y ys =>
      by_cases hx : x = c <;> simp [hx]

theorem splitChar_sep (c : Char) (l rest : Str) (hl : c ∉ l) :
    splitChar c (l ++ c :: rest) = l :: splitChar c rest := by
  induction l with
  | nil =>
    simp only [List.nil_append, splitChar]
    cases h : splitChar c rest with
    | nil => exact absurd h (splitChar_ne_nil c rest)
    | cons y ys => simp
  | cons a as ih =>
    have ha : a ≠ c := by
      intro h; exact hl (h ▸ List.mem_cons_self a as)
    have has : c ∉ as := fun h => hl (List.mem_cons_of_mem a h)
    simp only [List.cons_append, splitChar, List.append_eq]
    rw [ih has]
    simp [ha]

theorem splitChar_of_not_mem (c : Char) (l : Str) (hl : c ∉ l) :
    splitChar c l = [l] := by
  induction l with
  | nil => rfl
  | cons a as ih =>
    have ha : a ≠ c := by
      intro h; exact hl (h ▸ List.mem_cons_self a as)
    have has : c ∉ as := fun h => hl (List.mem_cons_of_mem a h)
    simp [splitChar, ih has, ha]

theorem occursIn_nil (s : Str) : occursIn [] s = true := by
  cases s with
  | nil => rfl
  | cons b bs => simp [occursIn, begMatch]

theorem contains_true_iff (l : List Str) (a : Str) :
    l.contains a = true ↔ a ∈ l := by
  simp

theorem eq_false_of_bnot (b : Bool) (h : (!b) = true) : b = false := by
  cases b
  · rfl
  · simp at h

theorem splitIncl_term (l rest : Str) (hl : '\n' ∉ l) :
    splitIncl (l ++ '\n' :: rest) = (l ++ ['\n']) :: splitIncl rest := by
  induction l with
  | nil => simp [splitIncl]
  | cons a as ih =>
    have ha : a ≠ '\n' := by
      intro h; exact hl (h ▸ List.mem_cons_self a as)
    have has : '\n' ∉ as := fun h => hl (List.mem_cons_of_mem a h)
    simp only [List.cons_append, splitIncl, List.append_eq]
    rw [if_neg ha, ih has]

theorem splitIncl_no_nl (l : Str) (hne : l ≠ []) (hl : '\n' ∉ l) :
    splitIncl l = [l] := by
  induction l with
  | nil => exact absurd rfl hne
  | cons a as ih =>
    have ha : a ≠ '\n' := by
      intro h; exact hl (h ▸ List.mem_cons_self a as)
    have has : '\n' ∉ as := fun h => hl (List.mem_cons_of_mem a h)
    simp only [splitIncl]
    rw [if_neg ha]
    cases hcase : as with
    | nil => simp [splitIncl]
    | cons b bs =>
      rw [← hcase, ih (by simp [hcase]) has]

theorem linesMap_term (l : Str) (hr : '\r' ∉ l) :
    linesMap (l ++ ['\n']) = l := by
  have h1 : stripTrailChar '\n' (l ++ ['\n']) = some l := by
    simp [stripTrailChar, List.getLast?_concat, List.dropLast_concat]
  have h2 : stripTrailChar '\r' l = none := by
    simp only [stripTrailChar, ite_eq_right_iff]
    intro h
    exact absurd (List.mem_of_getLast?_eq_some h) hr
  simp [linesMap, h1, h2]

theorem linesMap_no_nl (l : Str) (hl : '\n' ∉ l) :
    linesMap l = l := by
  have h1 : stripTrailChar '\n' l = none := by
    simp only [stripTrailChar, ite_eq_right_iff]
    intro h
    exact absurd (List.mem_of_getLast?_eq_some h) hl
  simp [linesMap, h1]

theorem rlines_joinTerm (ls : List Str)
    (h : ∀ l ∈ ls, '\n' ∉ l ∧ '\r' ∉ l) :
    rlines (joinTerm ls) = ls := by
  induction ls with
  | nil => rfl
  | cons l ls ih =>
    have hl := h l (List.mem_cons_self l ls)
    have hrest : ∀ x ∈ ls, '\n' ∉ x ∧ '\r' ∉ x :=
      fun x hx => h x (List.mem_cons_of_mem l hx)
    show rlines (l ++ '\n' :: joinTerm ls) = l :: ls
    rw [rlines, splitIncl_term l (joinTerm ls) hl.1, List.map_cons,
      linesMap_term l hl.2]
    exact congrArg (l :: ·) (ih hrest)

theorem rlines_joinTerm_append (ls : List Str) (lst : Str)
    (h : ∀ l ∈ ls, '\n' ∉ l ∧ '\r' ∉ l)
    (hne : lst ≠ []) (hnl : '\n' ∉ lst) :
    rlines (joinTerm ls ++ lst) = ls ++ [lst] := by
  induction ls with
  | nil =>
    show rlines lst = [lst]
    rw [rlines, splitIncl_no_nl lst hne hnl, List.map_cons, List.map_nil,
      linesMap_no_nl lst hnl]
  | cons l ls ih =>
    have hl := h l (List.mem_cons_self l ls)
    have hrest : ∀ x ∈ ls, '\n' ∉ x ∧ '\r' ∉ x :=
      fun x hx => h x (List.mem_cons_of_mem l hx)
    have hassoc : joinTerm (l :: ls) ++ lst = l ++ '\n' :: (joinTerm ls ++ lst) := by
      show (l ++ '\n' :: joinTerm ls) ++ lst = _
      simp [List.append_assoc]
    rw [hassoc, rlines, splitIncl_term l (joinTerm ls ++ lst) hl.1, List.map_cons,
      linesMap_term l hl.2]
    exact congrArg (l :: ·) (ih hrest)

/-! ### Claim theorems -/

/-- C1: any commit summary present (by exact string equality) in both input
lists of `compare` never appears in the output, for every exclusion
argument; duplicates of that summary inside the first list are each
dropped, since the conclusion covers every commit of the output. -/
theorem claim_C1_common_summary_dropped (A B : List Commit)
    (excl : Option (List Str)) (s : Str)
    (_hA : ∃ a ∈ A, a.summary = s) (hB : ∃ b ∈ B, b.summary = s) :
    ∀ c ∈ compare A B excl, c.summary ≠ s := by
  rcases hB with ⟨b, hbB, hbs⟩
  intro c hc hcs
  simp only [compare] at hc
  rw [List.mem_filter, Bool.and_eq_true] at hc
  have h1 : ((B.map fun x => x.summary).contains c.summary) = false :=
    eq_false_of_bnot _ hc.2.1
  have h2 : c.summary ∈ B.map fun x => x.summary := by
    rw [hcs]
    exact List.mem_map.mpr ⟨b, hbB, hbs⟩
  rw [← contains_true_iff] at h2
  rw [h1] at h2
  cases h2

/-- Witness for C1 at a concrete input: the shared summary `x` is dropped. -/
theorem claim_C1_witness :
    (∃ a ∈ [Commit.mk ['d'] ['x']], a.summary = ['x']) ∧
    (∃ b ∈ [Commit.mk ['e'] ['x']], b.summary = ['x']) ∧
    ∀ c ∈ compare [Commit.mk ['d'] ['x']] [Commit.mk ['e'] ['x']] none,
      c.summary ≠ ['x'] :=
  ⟨by decide, by decide,
    claim_C1_common_summary_dropped _ _ none ['x'] (by decide) (by decide)⟩

/-- C2: when the summaries of the two lists are disjoint and no exclusion
list is given, `compare` returns the first list unchanged. -/
theorem claim_C2_disjoint_identity (A B : List Commit)
    (h : ∀ a ∈ A, ∀ b ∈ B, a.summary ≠ b.summary) :
    compare A B none = A := by
  simp only [compare]
  rw [List.filter_eq_self]
  intro c hc
  rw [Bool.and_eq_true]
  refine ⟨?_, by simp⟩
  rw [Bool.not_eq_true']
  cases hcon : (B.map fun x => x.summary).contains c.summary
  · rfl
  · exfalso
    rcases List.mem_map.mp ((contains_true_iff _ _).mp hcon) with ⟨b, hbB, hbs⟩
    exact h c hc b hbB hbs.symm

/-- Witness for C2 at a concrete input with disjoint summaries. -/
theorem claim_C2_witness :
    (∀ a ∈ [Commit.mk ['d'] ['x']], ∀ b ∈ [Commit.mk ['e'] ['y']],
      a.summary ≠ b.summary) ∧
    compare [Commit.mk ['d'] ['x']] [Commit.mk ['e'] ['y']] none =
      [Commit.mk ['d'] ['x']] :=
  ⟨by decide, claim_C2_disjoint_identity _ _ (by decide)⟩

/-- C3: `compare` is order-preserving: its output is a sublist of the first
input list, so retained commits keep their original relative order. -/
theorem claim_C3_order_preserved (A B : List Commit)
    (excl : Option (List Str)) :
    List.Sublist (compare A B excl) A := by
  simp only [compare]
  exact List.filter_sublist A

/-- Witness for C3 at a concrete input. -/
theorem claim_C3_witness :
    List.Sublist
      (compare [Commit.mk ['d'] ['x'], Commit.mk ['e'] ['y']]
        [Commit.mk ['f'] ['x']] none)
      [Commit.mk ['d'] ['x'], Commit.mk ['e'] ['y']] :=
  claim_C3_order_preserved
    [Commit.mk ['d'] ['x'], Commit.mk ['e'] ['y']] [Commit.mk ['f'] ['x']] none

/-- C4: exclusion is complete across both stages: for a line with at least
3 fields whose summary field contains an entry of the exclusion list,
`parse_commit_message` returns `none`, and no commit whose summary
contains such an entry ever appears in the output of `compare`. -/
theorem claim_C4_exclusion_both_stages (X : List Str) (w : Str)
    (hw : w ∈ X) :
    (∀ msg : Str, 2 < (splitChar '|' msg).length →
      occursIn w ((splitChar '|' msg).getD 2 []) = true →
      parse_commit_message msg (some X) = Except.ok none) ∧
    (∀ A B : List Commit, ∀ c ∈ compare A B (some X),
      occursIn w c.summary = false) := by
  constructor
  · intro msg hlen hocc
    simp only [parse_commit_message]
    rw [if_neg (by omega)]
    have hany : (X.any fun v => occursIn v ((splitChar '|' msg).getD 2 [])) =
        true := List.any_eq_true.mpr ⟨w, hw, hocc⟩
    rw [if_pos hany]
  · intro A B c hc
    simp only [compare] at hc
    rw [List.mem_filter, Bool.and_eq_true] at hc
    have h2 : (X.any fun v => occursIn v c.summary) = false :=
      eq_false_of_bnot _ hc.2.2
    cases hocc : occursIn w c.summary
    · rfl
    · exfalso
      have h3 : (X.any fun v => occursIn v c.summary) = true :=
        List.any_eq_true.mpr ⟨w, hw, hocc⟩
      rw [h2] at h3
      cases h3

/-- Witness for C4: parse-time and diff-time exclusion at concrete inputs. -/
theorem claim_C4_witness :
    ['x'] ∈ [['x']] ∧
    parse_commit_message ['h', '|', 'd', '|', 'x'] (some [['x']]) =
      Except.ok none ∧
    occursIn ['x'] (Commit.mk ['d'] ['y']).summary = false :=
  ⟨by decide,
    (claim_C4_exclusion_both_stages [['x']] ['x'] (by decide)).1
      ['h', '|', 'd', '|', 'x'] (by decide) (by decide),
    (claim_C4_exclusion_both_stages [['x']] ['x'] (by decide)).2
      [Commit.mk ['d'] ['y']] [] (Commit.mk ['d'] ['y']) (by decide)⟩

/-- C5: a raw line with fewer than 3 `|`-delimited fields makes
`parse_commit_message` reach the out-of-bounds indexing condition
(`fields[2]`): it neither returns a commit nor silently skips. -/
theorem claim_C5_short_line_out_of_bounds (msg : Str)
    (excl : Option (List Str)) (h : (splitChar '|' msg).length < 3) :
    parse_commit_message msg excl = Except.error Panic.indexOutOfBounds := by
  simp only [parse_commit_message]
  rw [if_pos h]

/-- Witness for C5: a line with a single `|` (2 fields) hits the
out-of-bounds condition. -/
theorem claim_C5_witness :
    (splitChar '|' ['a', '|', 'b']).length < 3 ∧
    parse_commit_message ['a', '|', 'b'] none =
      Except.error Panic.indexOutOfBounds :=
  ⟨by decide, claim_C5_short_line_out_of_bounds ['a', '|', 'b'] none (by decide)⟩

/-- C6 counterexample: on the line `h|2024-01-01|a|b`, whose summary field
is the free text `a|b` (containing `|`), `parse_commit_message` returns
the truncated summary `a`, not the verbatim summary `a|b`: the verbatim
requirement of the claim fails when the summary itself contains `|`. -/
theorem claim_C6_counterexample :
    parse_commit_message
        ['h', '|', '2', '0', '2', '4', '|', 'a', '|', 'b'] none =
      Except.ok (some (Commit.mk ['2', '0', '2', '4'] ['a'])) ∧
    (['a'] : Str) ≠ ['a', '|', 'b'] :=
  ⟨rfl, by decide⟩

/-- C6 amended: for a line `<hash>|<date>|<summary>` in which no field
contains `|` (so the line splits into exactly 3 fields) and no entry of
a present exclusion list occurs in the summary,
`parse_commit_message` returns the commit with the date and summary
fields verbatim. -/
theorem claim_C6_amended_verbatim (hash date summ : Str)
    (excl : Option (List Str))
    (h1 : '|' ∉ hash) (h2 : '|' ∉ date) (h3 : '|' ∉ summ)
    (hex : ∀ X, excl = some X → ∀ w ∈ X, occursIn w summ = false) :
    parse_commit_message (hash ++ '|' :: (date ++ '|' :: summ)) excl =
      Except.ok (some (Commit.mk date summ)) := by
  have hsplit : splitChar '|' (hash ++ '|' :: (date ++ '|' :: summ)) =
      [hash, date, summ] := by
    rw [splitChar_sep _ _ _ h1, splitChar_sep _ _ _ h2,
      splitChar_of_not_mem _ _ h3]
  simp only [parse_commit_message, hsplit]
  cases excl with
  | none => rfl
  | some X =>
    have hany : (X.any fun w => occursIn w summ) = false := by
      rw [List.any_eq_false]
      intro w hwX
      simp [hex X rfl w hwX]
    show (if (X.any fun w => occursIn w summ) = true
        then (Except.ok none : Except Panic (Option Commit))
        else Except.ok (some (Commit.mk date summ))) =
      Except.ok (some (Commit.mk date summ))
    rw [hany]
    simp

/-- Witness for C6 (amended): a well-formed pipe-free line parses to the
verbatim date and summary. -/
theorem claim_C6_witness :
    ('|' ∉ (['h'] : Str) ∧ '|' ∉ (['d', 't'] : Str) ∧
      '|' ∉ (['F', 'i', 'x'] : Str)) ∧
    (['h'] : Str) ++ '|' :: (['d', 't'] ++ '|' :: ['F', 'i', 'x']) =
      ['h', '|', 'd', 't', '|', 'F', 'i', 'x'] ∧
    parse_commit_message (['h'] ++ '|' :: (['d', 't'] ++ '|' :: ['F', 'i', 'x']))
        none = Except.ok (some (Commit.mk ['d', 't'] ['F', 'i', 'x'])) :=
  ⟨by decide, by decide,
    claim_C6_amended_verbatim ['h'] ['d', 't'] ['F', 'i', 'x'] none
      (by decide) (by decide) (by decide) (fun X hX => by cases hX)⟩

/-- World in which repo-root resolution succeeds but every log spawn
fails: used for the C7 counterexample and witness. -/
def w0 : GitWorld :=
  GitWorld.mk (SpawnResult.ok (Output.mk true ['/', 'r']))
    (fun _ _ => SpawnResult.spawnError)

/-- C7 counterexample: in a world where repo-root resolution succeeds but
spawning the log process fails, `compare_branches` ends in a panic (the
`.unwrap()` on `get_branch_commits`), not in a returned
`executionFailure` error. -/
theorem claim_C7_counterexample :
    compare_branches w0 ['m'] ['d'] none = RunOutcome.panicked ∧
    RunOutcome.panicked ≠ RunOutcome.error RunError.executionFailure :=
  ⟨rfl, by decide⟩

/-- C7 amended: a spawn failure of the log process for the first branch
makes `compare_branches` panic (crash via `.unwrap()`), rather than
return an error value; no retry happens and no results at all are
returned, the run just ends abnormally. -/
theorem claim_C7_amended_log_spawn_panics (w : GitWorld) (b1 b2 : Str)
    (excl : Option (List Str)) (top : Output)
    (hrev : w.revParse = SpawnResult.ok top) (hsucc : top.success = true)
    (hlog : w.logCmd (trim top.stdout) b1 = SpawnResult.spawnError) :
    compare_branches w b1 b2 excl = RunOutcome.panicked := by
  unfold compare_branches
  rw [hrev]
  simp [hsucc, hlog]

/-- Witness for C7 (amended): the concrete world `w0`. -/
theorem claim_C7_witness :
    w0.revParse = SpawnResult.ok (Output.mk true ['/', 'r']) ∧
    (Output.mk true ['/', 'r']).success = true ∧
    w0.logCmd (trim (Output.mk true ['/', 'r']).stdout) ['m'] =
      SpawnResult.spawnError ∧
    compare_branches w0 ['m'] ['d'] none = RunOutcome.panicked :=
  ⟨rfl, rfl, rfl,
    claim_C7_amended_log_spawn_panics w0 ['m'] ['d'] none
      (Output.mk true ['/', 'r']) rfl rfl rfl⟩

/-- C8: when the repo-root resolution process reports a failed exit
status, `compare_branches` returns the not-a-repository error. The log
oracle `logf` is universally quantified, so the result is reached
before and independently of any log fetch. -/
theorem claim_C8_not_a_repository (top : Output)
    (logf : Str → Str → SpawnResult) (b1 b2 : Str)
    (excl : Option (List Str)) (h : top.success = false) :
    compare_branches (GitWorld.mk (SpawnResult.ok top) logf) b1 b2 excl =
      RunOutcome.error RunError.notARepository := by
  unfold compare_branches
  simp [h]

/-- Witness for C8: a failed rev-parse exit status with a log oracle that
could only fail to spawn; the result is still the not-a-repository
error, untouched by the log oracle. -/
theorem claim_C8_witness :
    (Output.mk false []).success = false ∧
    compare_branches
        (GitWorld.mk (SpawnResult.ok (Output.mk false []))
          (fun _ _ => SpawnResult.spawnError)) ['m'] ['d'] none =
      RunOutcome.error RunError.notARepository :=
  ⟨rfl, claim_C8_not_a_repository (Output.mk false [])
    (fun _ _ => SpawnResult.spawnError) ['m'] ['d'] none rfl⟩

/-- C9: the line splitter of `parse_git_output`: empty text yields no
lines; a newline-terminated text yields exactly its lines in order with
no spurious empty trailing entry; an unterminated final line is also
yielded, last. -/
theorem claim_C9_lines_round_trip :
    (∀ out : Output, parse_git_output out = rlines out.stdout) ∧
    rlines [] = [] ∧
    ∀ ls : List Str, (∀ l ∈ ls, '\n' ∉ l ∧ '\r' ∉ l) →
      rlines (joinTerm ls) = ls ∧
      ∀ lst : Str, lst ≠ [] → '\n' ∉ lst →
        rlines (joinTerm ls ++ lst) = ls ++ [lst] :=
  ⟨fun _ => rfl, rfl, fun ls h =>
    ⟨rlines_joinTerm ls h,
      fun lst hne hnl => rlines_joinTerm_append ls lst h hne hnl⟩⟩

/-- Witness for C9 at a concrete line list (with an inner empty line kept
and no trailing empty line added). -/
theorem claim_C9_witness :
    (∀ l ∈ [['a'], ([] : Str), ['b']], '\n' ∉ l ∧ '\r' ∉ l) ∧
    rlines (joinTerm [['a'], [], ['b']]) = [['a'], [], ['b']] ∧
    rlines (joinTerm [['a'], [], ['b']] ++ ['c']) = [['a'], [], ['b'], ['c']] :=
  ⟨by decide,
    (claim_C9_lines_round_trip.2.2 [['a'], [], ['b']] (by decide)).1,
    (claim_C9_lines_round_trip.2.2 [['a'], [], ['b']] (by decide)).2
      ['c'] (by decide) (by decide)⟩

/-- C10 counterexample: with an exclusion list containing the empty
string, `parse_commit_message` does not return `none` on the malformed
line `a`: the out-of-bounds condition hits before the exclusion
check. -/
theorem claim_C10_counterexample :
    parse_commit_message ['a'] (some [[]]) =
      Except.error Panic.indexOutOfBounds ∧
    (Except.error Panic.indexOutOfBounds :
        Except Panic (Option Commit)) ≠ Except.ok none :=
  ⟨rfl, fun h => nomatch h⟩

/-- C10 amended: with an exclusion list containing the empty string,
every line with at least 3 fields parses to `none`, `compare` is empty
on all inputs, and every run of the whole pipeline that returns
successfully returns the empty list; malformed lines still hit the
out-of-bounds condition instead of returning `none`. -/
theorem claim_C10_amended_empty_pattern (X : List Str) (hX : [] ∈ X) :
    (∀ msg : Str, 2 < (splitChar '|' msg).length →
      parse_commit_message msg (some X) = Except.ok none) ∧
    (∀ A B : List Commit, compare A B (some X) = []) ∧
    (∀ w : GitWorld, ∀ b1 b2 : Str, ∀ cs : List Commit,
      compare_branches w b1 b2 (some X) = RunOutcome.ok cs → cs = []) := by
  have hany : ∀ s : Str, (X.any fun v => occursIn v s) = true :=
    fun s => List.any_eq_true.mpr ⟨[], hX, occursIn_nil s⟩
  have hcmp : ∀ A B : List Commit, compare A B (some X) = [] := by
    intro A B
    simp only [compare]
    rw [List.filter_eq_nil_iff]
    intro c hc hpred
    rw [Bool.and_eq_true] at hpred
    have h2 := eq_false_of_bnot _ hpred.2
    rw [hany] at h2
    cases h2
  refine ⟨?_, hcmp, ?_⟩
  · intro msg hlen
    simp only [parse_commit_message]
    rw [if_neg (by omega), if_pos (hany _)]
  · intro w b1 b2 cs h
    unfold compare_branches at h
    dsimp only [] at h
    repeat' (first | split at h | dsimp only [] at h)
    all_goals
      first
        | exact RunOutcome.noConfusion h
        | (injection h with h'
           rw [hcmp] at h'
           exact h'.symm)

/-- Witness for C10 (amended): the exclusion list `[""]` empties both the
parser output on a well-formed line and the differ output. -/
theorem claim_C10_witness :
    ([] : Str) ∈ [([] : Str)] ∧
    parse_commit_message ['h', '|', 'd', '|', 's'] (some [[]]) =
      Except.ok none ∧
    compare [Commit.mk ['d'] ['s']] [] (some [[]]) = [] :=
  ⟨by decide,
    (claim_C10_amended_empty_pattern [[]] (by decide)).1
      ['h', '|', 'd', '|', 's'] (by decide),
    (claim_C10_amended_empty_pattern [[]] (by decide)).2.1
      [Commit.mk ['d'] ['s']] []⟩

end Git
